import Mathlib

/-!
Verification development for the framerate-server consistency core.

The definitions below are a shallow embedding of the TypeScript services in
`src/services/v1` (actions.ts, lists.ts), `src/lib` (validate-rating.ts,
slug.ts, authorization.ts), the review service, and the drizzle schema
(`src/drizzle/schema.ts`).  Tables are embedded as Lean lists of row
structures; each service function becomes a pure state-passing function on a
`DB` value.  Machine integers are modelled as `Int`/`Nat`, SQL `numeric`
ratings as `Rat`, timestamps as `Int` milliseconds, and `Date.now()` is an
explicit `now` argument.  The SHA-256 address hasher (`getHashedValue`) is
passed in as an abstract `String → String` function.  Foreign-key actions are
taken verbatim from the schema's `onDelete` declarations.
-/

namespace FrameRate

/-- Row of the `list` table (schema.ts, `list`).  `likeCount`/`saveCount` are
SQL integers, embedded as `Int`. -/
structure ListRow where
  id : Nat
  userId : String
  name : String
  likeCount : Int
  saveCount : Int
  slug : String
  createdAt : Int
  updatedAt : Option Int
deriving DecidableEq, Repr

/-- Row of the `list_likes` / `list_saves` join tables (schema.ts).  The
serial `id` and `createdAt` columns play no role in any service logic, so the
row keeps the two key columns. -/
structure ActionRow where
  userId : String
  listId : Nat
deriving DecidableEq, Repr

/-- The media-kind union type `"movie" | "tv"` used across the services. -/
inductive MediaType where
  | movie
  | tv
deriving DecidableEq, Repr

/-- Row of the `list_item` table (schema.ts, `listItem`). -/
structure ItemRow where
  id : Nat
  userId : String
  listId : Nat
  movieId : Option Nat
  seriesId : Option Nat
  mediaType : MediaType
  createdAt : Int
deriving DecidableEq, Repr

/-- Row of the `list_views` table (schema.ts, `listView`). -/
structure ViewRow where
  id : Nat
  userId : Option String
  listId : Nat
  ipAddress : Option String
  createdAt : Int
deriving DecidableEq, Repr

/-- Row of the `list_slug_history` table (schema.ts, `listSlugHistory`). -/
structure SlugHistoryRow where
  id : Nat
  listId : Nat
  oldSlug : String
  createdAt : Int
deriving DecidableEq, Repr

/-- Row of the `movie` / `tv` tables; only the columns the slug allocator
touches are kept (`id`, `title`, nullable unique `slug`). -/
structure MediaRow where
  id : Nat
  title : String
  slug : Option String
deriving DecidableEq, Repr

/-- Row of the `movie_review` / `tv_review` tables (schema.ts).  `mediaId`
stands for the `movie_id` / `series_id` primary-key component; `rating` is
the SQL `numeric(2, 1)` column embedded as `Rat`: the column's rounding to
scale 1 and its overflow at two integer digits are enforced at every write
by `numericStore21`, so a stored rating is always a one-decimal value of
magnitude below 10. -/
structure ReviewRow where
  userId : String
  mediaId : Nat
  rating : Rat
  mediaType : MediaType
  liked : Bool
  watched : Bool
  review : Option String
  createdAt : Int
  updatedAt : Int
deriving DecidableEq, Repr

/-- Row of the `user` table; only the columns the list services read. -/
structure UserRow where
  id : String
  username : String
deriving DecidableEq, Repr

/-- The relational store: one list per table of the drizzle schema, plus the
serial-id counters for the tables whose generated ids the services return. -/
structure DB where
  lists : List ListRow
  listItems : List ItemRow
  listLikes : List ActionRow
  listSaves : List ActionRow
  listViews : List ViewRow
  listSlugHistory : List SlugHistoryRow
  movies : List MediaRow
  tvs : List MediaRow
  movieReviews : List ReviewRow
  tvReviews : List ReviewRow
  users : List UserRow
  nextItemId : Nat
  nextViewId : Nat
  nextHistoryId : Nat
deriving DecidableEq, Repr

/-- The `"like" | "save"` union dispatched through `tablesMap` in
actions.ts. -/
inductive ActionField where
  | like
  | save
deriving DecidableEq, Repr

/-- The `HttpError` (src/lib/httpError.ts): an HTTP status plus message. -/
structure HttpErr where
  status : Nat
  message : String
deriving DecidableEq, Repr

/-- The join table selected by `tablesMap[field].actionTable` in
actions.ts. -/
def DB.actionTable (db : DB) : ActionField → List ActionRow
  | .like => db.listLikes
  | .save => db.listSaves

/-- Writes back the join table selected by `field`. -/
def DB.setActionTable (db : DB) (field : ActionField) (t : List ActionRow) : DB :=
  match field with
  | .like => { db with listLikes := t }
  | .save => { db with listSaves := t }

/-- The `sql`-level `GREATEST` is `max`; kept as a named function because the
decrement in `deleteListAction` uses `GREATEST(col - 1, 0)`. -/
def sqlGreatest (a b : Int) : Int := max a b

/-- The `{ likeCount, saveCount }` projection selected from the `list` row by
both action services. -/
structure CountPair where
  likeCount : Int
  saveCount : Int
deriving DecidableEq, Repr

/-- Bumps the counter column named by `field` (`likeCount + 1` or
`saveCount + 1`), as the `UPDATE ... SET col = col + 1` in
`addListAction`. -/
def bumpCounter (field : ActionField) (l : ListRow) : ListRow :=
  match field with
  | .like => { l with likeCount := l.likeCount + 1 }
  | .save => { l with saveCount := l.saveCount + 1 }

/-- Decrements the counter column named by `field` with the
`GREATEST(col - 1, 0)` clamp of `deleteListAction`. -/
def dropCounter (field : ActionField) (l : ListRow) : ListRow :=
  match field with
  | .like => { l with likeCount := sqlGreatest (l.likeCount - 1) 0 }
  | .save => { l with saveCount := sqlGreatest (l.saveCount - 1) 0 }

/-- The `{likeCount, saveCount}` pair of a list row. -/
def ListRow.counts (l : ListRow) : CountPair :=
  ⟨l.likeCount, l.saveCount⟩

/-- The `SELECT likeCount, saveCount FROM list WHERE id = listId` followed by the
`[current]` destructuring: the first matching row, if any. -/
def selectCounts (lists : List ListRow) (listId : Nat) : Option CountPair :=
  (lists.find? (fun l => l.id == listId)).map ListRow.counts

/-- The `addListAction` (src/services/v1/actions.ts, lines 58–110): inside one
transaction, insert `(userId, listId)` into the join table for `field` with
`onConflictDoNothing` targeting `(userId, listId)`; on conflict return the
parent list's current counts, otherwise increment the list's counter column
by 1 and return the updated counts.  Result is `(returned counts?, new DB)`;
`none` corresponds to the service returning `undefined`. -/
def addListAction (userId : String) (listId : Nat) (field : ActionField)
    (db : DB) : Option CountPair × DB :=
  let table := db.actionTable field
  let conflict := table.any (fun r => r.userId == userId && r.listId == listId)
  if conflict then
    (selectCounts db.lists listId, db)
  else
    let table2 := table ++ [⟨userId, listId⟩]
    let lists2 := db.lists.map (fun l =>
      if l.id == listId then bumpCounter field l else l)
    let db2 := { (db.setActionTable field table2) with lists := lists2 }
    (selectCounts lists2 listId, db2)

/-- The `deleteListAction` (src/services/v1/actions.ts, lines 121–173): delete
the `(userId, listId)` join row(s); if nothing was deleted return the current
counts, otherwise set the counter column to `GREATEST(col - 1, 0)` and return
the updated counts. -/
def deleteListAction (userId : String) (listId : Nat) (field : ActionField)
    (db : DB) : Option CountPair × DB :=
  let table := db.actionTable field
  let deleted := table.filter (fun r => r.userId == userId && r.listId == listId)
  if deleted.isEmpty then
    (selectCounts db.lists listId, db)
  else
    let table2 := table.filter (fun r => !(r.userId == userId && r.listId == listId))
    let lists2 := db.lists.map (fun l =>
      if l.id == listId then dropCounter field l else l)
    let db2 := { (db.setActionTable field table2) with lists := lists2 }
    (selectCounts lists2 listId, db2)

/-- The service's final projection: `{ likeCount }` for a like action,
`{ saveCount }` for a save action. -/
def actionResult (field : ActionField) (r : Option CountPair) : Option Int :=
  match field with
  | .like => r.map CountPair.likeCount
  | .save => r.map CountPair.saveCount

/-- One toggle request against the action services: `isAdd` selects
`addListAction` versus `deleteListAction`. -/
structure ToggleOp where
  isAdd : Bool
  userId : String
  listId : Nat
  field : ActionField
deriving DecidableEq, Repr

/-- State transition of one toggle request. -/
def applyToggle (db : DB) (op : ToggleOp) : DB :=
  if op.isAdd then (addListAction op.userId op.listId op.field db).2
  else (deleteListAction op.userId op.listId op.field db).2

/-- Number of live join rows for `listId` in the given join table:
`count(*) WHERE list_id = listId`. -/
def rowsFor (table : List ActionRow) (listId : Nat) : Nat :=
  table.countP (fun r => r.listId == listId)

/-- The schema's unique indexes `uniqueUserList` / `uniqueSavedList`
(schema.ts): no two join rows share the same `(userId, listId)` pair. -/
def actionsUnique (db : DB) : Prop :=
  (db.listLikes.map (fun r => (r.userId, r.listId))).Nodup ∧
    (db.listSaves.map (fun r => (r.userId, r.listId))).Nodup

/-- Counter/rowcount agreement for one list id: every `list` row with this id
carries exactly the live like-row and save-row counts for the id. -/
def countersMatch (db : DB) (listId : Nat) : Prop :=
  ∀ l ∈ db.lists, l.id = listId →
    l.likeCount = (rowsFor db.listLikes listId : Int) ∧
      l.saveCount = (rowsFor db.listSaves listId : Int)

/-- Splits a `countP` by a second Boolean predicate. -/
theorem countP_and_split {α : Type} (p q : α → Bool) (l : List α) :
    l.countP q =
      l.countP (fun a => q a && p a) + l.countP (fun a => q a && !p a) := by
  induction l with
  | nil => simp
  | cons a t ih =>
    rw [List.countP_cons, List.countP_cons, List.countP_cons]
    by_cases hp : p a = true <;> by_cases hq : q a = true <;>
      simp [hp, hq, ih] <;> omega

/-- With the `(userId, listId)` uniqueness index, at most one join row
matches a fixed pair. -/
theorem pair_countP_le_one (u : String) (L : Nat) (t : List ActionRow)
    (h : (t.map fun r => (r.userId, r.listId)).Nodup) :
    t.countP (fun r => r.userId == u && r.listId == L) ≤ 1 := by
  induction t with
  | nil => simp
  | cons a t ih =>
    rw [List.map_cons, List.nodup_cons] at h
    obtain ⟨ha, ht⟩ := h
    rw [List.countP_cons]
    by_cases hp : (a.userId == u && a.listId == L) = true
    · have hau : a.userId = u ∧ a.listId = L := by
        simpa using hp
      have hzero : t.countP (fun r => r.userId == u && r.listId == L) = 0 := by
        rw [List.countP_eq_zero]
        intro r hr hpr
        have hru : r.userId = u ∧ r.listId = L := by simpa using hpr
        refine ha ?_
        rw [List.mem_map]
        refine ⟨r, hr, ?_⟩
        rw [hru.1, hru.2, hau.1, hau.2]
      simp [hp, hzero]
    · simp [hp]
      exact le_trans (ih ht) (by omega)

/-- Mapping with a function that does not change the tested predicate
commutes with `find?`. -/
theorem find?_map_of_pred_inv {α : Type} {g : α → α} {p : α → Bool}
    (h : ∀ a, p (g a) = p a) (l : List α) :
    (l.map g).find? p = (l.find? p).map g := by
  induction l with
  | nil => simp
  | cons a t ih =>
    by_cases hp : p a = true
    · rw [List.map_cons, List.find?_cons_of_pos _ (by rw [h]; exact hp),
        List.find?_cons_of_pos _ hp]
      rfl
    · rw [List.map_cons,
        List.find?_cons_of_neg _ (by rw [h]; simpa using hp),
        List.find?_cons_of_neg _ (by simpa using hp), ih]

/-- The `bumpCounter` leaves the row id unchanged. -/
theorem bumpCounter_id (f : ActionField) (l : ListRow) :
    (bumpCounter f l).id = l.id := by
  cases f <;> rfl

/-- The `dropCounter` leaves the row id unchanged. -/
theorem dropCounter_id (f : ActionField) (l : ListRow) :
    (dropCounter f l).id = l.id := by
  cases f <;> rfl

/-- One `addListAction` call preserves join-table uniqueness and the
counter/rowcount agreement for every list id. -/
theorem addListAction_preserves (u : String) (L0 : Nat) (f : ActionField)
    (db : DB) (hu : actionsUnique db) (L : Nat) (hc : countersMatch db L) :
    actionsUnique (addListAction u L0 f db).2 ∧
      countersMatch (addListAction u L0 f db).2 L := by
  cases f with
  | like =>
    by_cases hconf :
        (db.listLikes.any fun r => r.userId == u && r.listId == L0) = true
    · simpa [addListAction, DB.actionTable, hconf] using And.intro hu hc
    · have hnotin :
          ∀ r ∈ db.listLikes, ¬(r.userId = u ∧ r.listId = L0) := by
        intro r hr hru
        refine hconf ?_
        rw [List.any_eq_true]
        exact ⟨r, hr, by simp [hru.1, hru.2]⟩
      constructor
      · simp only [addListAction, DB.actionTable, DB.setActionTable, hconf,
          Bool.false_eq_true, if_false]
        refine ⟨?_, hu.2⟩
        rw [List.map_append, List.nodup_append]
        refine ⟨hu.1, by simp, ?_⟩
        intro x hx hx1
        simp only [List.map_cons, List.map_nil, List.mem_singleton] at hx1
        subst hx1
        rw [List.mem_map] at hx
        obtain ⟨r, hr, hrx⟩ := hx
        exact hnotin r hr ⟨congrArg Prod.fst hrx, congrArg Prod.snd hrx⟩
      · simp only [addListAction, DB.actionTable, DB.setActionTable, hconf,
          Bool.false_eq_true, if_false]
        intro l2 hl2 hid
        rw [List.mem_map] at hl2
        obtain ⟨l, hl, rfl⟩ := hl2
        have hcl := hc l hl
        by_cases hL0 : (l.id == L0) = true
        · have hidl : l.id = L0 := by simpa using hL0
          have hidL : l.id = L := by
            simpa [hL0, bumpCounter_id] using hid
          have hcl2 := hcl hidL
          have hLL0 : L0 = L := hidl ▸ hidL
          subst hLL0
          simp [hL0, bumpCounter, rowsFor, List.countP_append,
            List.countP_cons, hidl, hcl2.1, hcl2.2]
        · have hidL : l.id = L := by simpa [hL0] using hid
          have hne : ¬(L0 == L) = true := by
            intro hLL
            have hL0L : L0 = L := by simpa using hLL
            exact hL0 (by simp [hidL, hL0L])
          have hcl2 := hcl hidL
          simp [hL0, rowsFor, List.countP_append, List.countP_cons, hne,
            hcl2.1, hcl2.2]
  | save =>
    by_cases hconf :
        (db.listSaves.any fun r => r.userId == u && r.listId == L0) = true
    · simpa [addListAction, DB.actionTable, hconf] using And.intro hu hc
    · have hnotin :
          ∀ r ∈ db.listSaves, ¬(r.userId = u ∧ r.listId = L0) := by
        intro r hr hru
        refine hconf ?_
        rw [List.any_eq_true]
        exact ⟨r, hr, by simp [hru.1, hru.2]⟩
      constructor
      · simp only [addListAction, DB.actionTable, DB.setActionTable, hconf,
          Bool.false_eq_true, if_false]
        refine ⟨hu.1, ?_⟩
        rw [List.map_append, List.nodup_append]
        refine ⟨hu.2, by simp, ?_⟩
        intro x hx hx1
        simp only [List.map_cons, List.map_nil, List.mem_singleton] at hx1
        subst hx1
        rw [List.mem_map] at hx
        obtain ⟨r, hr, hrx⟩ := hx
        exact hnotin r hr ⟨congrArg Prod.fst hrx, congrArg Prod.snd hrx⟩
      · simp only [addListAction, DB.actionTable, DB.setActionTable, hconf,
          Bool.false_eq_true, if_false]
        intro l2 hl2 hid
        rw [List.mem_map] at hl2
        obtain ⟨l, hl, rfl⟩ := hl2
        have hcl := hc l hl
        by_cases hL0 : (l.id == L0) = true
        · have hidl : l.id = L0 := by simpa using hL0
          have hidL : l.id = L := by
            simpa [hL0, bumpCounter_id] using hid
          have hcl2 := hcl hidL
          have hLL0 : L0 = L := hidl ▸ hidL
          subst hLL0
          simp [hL0, bumpCounter, rowsFor, List.countP_append,
            List.countP_cons, hidl, hcl2.1, hcl2.2]
        · have hidL : l.id = L := by simpa [hL0] using hid
          have hne : ¬(L0 == L) = true := by
            intro hLL
            have hL0L : L0 = L := by simpa using hLL
            exact hL0 (by simp [hidL, hL0L])
          have hcl2 := hcl hidL
          simp [hL0, rowsFor, List.countP_append, List.countP_cons, hne,
            hcl2.1, hcl2.2]

/-- Filtering a join table keeps the pair list duplicate-free. -/
theorem nodup_pairs_filter (q : ActionRow → Bool) (t : List ActionRow)
    (h : (t.map fun r => (r.userId, r.listId)).Nodup) :
    ((t.filter q).map fun r => (r.userId, r.listId)).Nodup :=
  ((t.filter_sublist (p := q)).map _).nodup h

/-- Deleting the single `(u, L)` join row lowers the row count for `L` by
exactly one (the count being at least one beforehand). -/
theorem countP_listId_filter_del (u : String) (L : Nat) (t : List ActionRow)
    (hnodup : (t.map fun r => (r.userId, r.listId)).Nodup)
    (hne : ∃ r ∈ t, (r.userId == u && r.listId == L) = true) :
    1 ≤ t.countP (fun r => r.listId == L) ∧
      (t.filter fun r => !(r.userId == u && r.listId == L)).countP
          (fun r => r.listId == L) =
        t.countP (fun r => r.listId == L) - 1 := by
  have hle := pair_countP_le_one u L t hnodup
  have hpos : 0 < t.countP (fun r => r.userId == u && r.listId == L) := by
    rw [List.countP_pos_iff]
    exact hne
  have hone : t.countP (fun r => r.userId == u && r.listId == L) = 1 := by
    omega
  have hsplit := countP_and_split
    (fun r => r.userId == u && r.listId == L) (fun r => r.listId == L) t
  have hcongr : t.countP
      (fun r => (r.listId == L) && (r.userId == u && r.listId == L)) =
      t.countP (fun r => r.userId == u && r.listId == L) := by
    refine List.countP_congr ?_
    intro r hr
    by_cases hp : (r.userId == u && r.listId == L) = true
    · have hq : (r.listId == L) = true := by
        have := hp
        simp only [Bool.and_eq_true] at this
        exact this.2
      simp [hp, hq]
    · simp [Bool.eq_false_iff.mpr hp]
  have hfil : (t.filter fun r => !(r.userId == u && r.listId == L)).countP
      (fun r => r.listId == L) =
      t.countP (fun r => (r.listId == L) && !(r.userId == u && r.listId == L)) :=
    List.countP_filter _ _ _
  constructor
  · omega
  · omega

/-- Deleting a pair for list `L0` does not change the row count of a
different list `L`. -/
theorem countP_listId_filter_other (u : String) (L0 L : Nat)
    (t : List ActionRow) (hLL0 : L ≠ L0) :
    (t.filter fun r => !(r.userId == u && r.listId == L0)).countP
        (fun r => r.listId == L) =
      t.countP (fun r => r.listId == L) := by
  have hfil : (t.filter fun r => !(r.userId == u && r.listId == L0)).countP
      (fun r => r.listId == L) =
      t.countP (fun r => (r.listId == L) && !(r.userId == u && r.listId == L0)) :=
    List.countP_filter _ _ _
  rw [hfil]
  refine List.countP_congr ?_
  intro r hr
  by_cases hq : (r.listId == L) = true
  · have hrL : r.listId = L := by simpa using hq
    have hp : (r.userId == u && r.listId == L0) = false := by
      have : ¬(r.listId == L0) = true := by
        intro hx
        exact hLL0 (hrL ▸ (by simpa using hx))
      simp [Bool.eq_false_iff.mpr this]
    simp [hq, hp]
  · simp [Bool.eq_false_iff.mpr hq]

/-- One `deleteListAction` call preserves join-table uniqueness and the
counter/rowcount agreement for every list id. -/
theorem deleteListAction_preserves (u : String) (L0 : Nat) (f : ActionField)
    (db : DB) (hu : actionsUnique db) (L : Nat) (hc : countersMatch db L) :
    actionsUnique (deleteListAction u L0 f db).2 ∧
      countersMatch (deleteListAction u L0 f db).2 L := by
  cases f with
  | like =>
    by_cases hdel :
        ((db.listLikes.filter fun r =>
          r.userId == u && r.listId == L0).isEmpty) = true
    · simpa [deleteListAction, DB.actionTable, hdel] using And.intro hu hc
    · have hne : ∃ r ∈ db.listLikes, (r.userId == u && r.listId == L0) = true := by
        have : db.listLikes.filter
            (fun r => r.userId == u && r.listId == L0) ≠ [] := by
          intro hx
          exact hdel (by simp [hx])
        obtain ⟨r, hr⟩ := List.exists_mem_of_ne_nil _ this
        exact ⟨r, (List.mem_filter.mp hr).1, (List.mem_filter.mp hr).2⟩
      constructor
      · simp only [deleteListAction, DB.actionTable, DB.setActionTable, hdel,
          Bool.false_eq_true, if_false]
        exact ⟨nodup_pairs_filter _ _ hu.1, hu.2⟩
      · simp only [deleteListAction, DB.actionTable, DB.setActionTable, hdel,
          Bool.false_eq_true, if_false]
        intro l2 hl2 hid
        rw [List.mem_map] at hl2
        obtain ⟨l, hl, rfl⟩ := hl2
        have hcl := hc l hl
        by_cases hL0 : (l.id == L0) = true
        · have hidl : l.id = L0 := by simpa using hL0
          have hidL : l.id = L := by
            simpa [hL0, dropCounter_id] using hid
          have hcl2 := hcl hidL
          have hLL0 : L0 = L := hidl ▸ hidL
          subst hLL0
          have hdelc := countP_listId_filter_del u L0 db.listLikes hu.1 hne
          simp only [hL0, if_true, dropCounter, sqlGreatest]
          refine ⟨?_, by simpa [rowsFor] using hcl2.2⟩
          rw [hcl2.1]
          simp only [rowsFor] at hdelc ⊢
          rw [hdelc.2]
          omega
        · have hidL : l.id = L := by simpa [hL0] using hid
          have hLne : L ≠ L0 := by
            intro hx
            exact hL0 (by simp [hidL, hx])
          have hcl2 := hcl hidL
          have hoth := countP_listId_filter_other u L0 L db.listLikes hLne
          simp only [hL0, Bool.false_eq_true, if_false]
          refine ⟨?_, by simpa [rowsFor] using hcl2.2⟩
          rw [hcl2.1]
          simp only [rowsFor] at hoth ⊢
          rw [hoth]
  | save =>
    by_cases hdel :
        ((db.listSaves.filter fun r =>
          r.userId == u && r.listId == L0).isEmpty) = true
    · simpa [deleteListAction, DB.actionTable, hdel] using And.intro hu hc
    · have hne : ∃ r ∈ db.listSaves, (r.userId == u && r.listId == L0) = true := by
        have : db.listSaves.filter
            (fun r => r.userId == u && r.listId == L0) ≠ [] := by
          intro hx
          exact hdel (by simp [hx])
        obtain ⟨r, hr⟩ := List.exists_mem_of_ne_nil _ this
        exact ⟨r, (List.mem_filter.mp hr).1, (List.mem_filter.mp hr).2⟩
      constructor
      · simp only [deleteListAction, DB.actionTable, DB.setActionTable, hdel,
          Bool.false_eq_true, if_false]
        exact ⟨hu.1, nodup_pairs_filter _ _ hu.2⟩
      · simp only [deleteListAction, DB.actionTable, DB.setActionTable, hdel,
          Bool.false_eq_true, if_false]
        intro l2 hl2 hid
        rw [List.mem_map] at hl2
        obtain ⟨l, hl, rfl⟩ := hl2
        have hcl := hc l hl
        by_cases hL0 : (l.id == L0) = true
        · have hidl : l.id = L0 := by simpa using hL0
          have hidL : l.id = L := by
            simpa [hL0, dropCounter_id] using hid
          have hcl2 := hcl hidL
          have hLL0 : L0 = L := hidl ▸ hidL
          subst hLL0
          have hdelc := countP_listId_filter_del u L0 db.listSaves hu.2 hne
          simp only [hL0, if_true, dropCounter, sqlGreatest]
          refine ⟨by simpa [rowsFor] using hcl2.1, ?_⟩
          rw [hcl2.2]
          simp only [rowsFor] at hdelc ⊢
          rw [hdelc.2]
          omega
        · have hidL : l.id = L := by simpa [hL0] using hid
          have hLne : L ≠ L0 := by
            intro hx
            exact hL0 (by simp [hidL, hx])
          have hcl2 := hcl hidL
          have hoth := countP_listId_filter_other u L0 L db.listSaves hLne
          simp only [hL0, Bool.false_eq_true, if_false]
          refine ⟨by simpa [rowsFor] using hcl2.1, ?_⟩
          rw [hcl2.2]
          simp only [rowsFor] at hoth ⊢
          rw [hoth]

/-- Folding any sequence of toggle requests preserves both the schema
uniqueness of the join tables and the counter/rowcount agreement. -/
theorem toggle_fold_preserves (L : Nat) (ops : List ToggleOp) (db : DB)
    (hu : actionsUnique db) (hc : countersMatch db L) :
    actionsUnique (ops.foldl applyToggle db) ∧
      countersMatch (ops.foldl applyToggle db) L := by
  induction ops generalizing db with
  | nil => exact ⟨hu, hc⟩
  | cons op ops ih =>
    rw [List.foldl_cons]
    have hstep : actionsUnique (applyToggle db op) ∧
        countersMatch (applyToggle db op) L := by
      unfold applyToggle
      by_cases hadd : op.isAdd = true
      · simpa [hadd] using
          addListAction_preserves op.userId op.listId op.field db hu L hc
      · simpa [hadd] using
          deleteListAction_preserves op.userId op.listId op.field db hu L hc
    exact ih _ hstep.1 hstep.2

/-- C1: For every list and every sequence of toggle operations
(`addListAction` / `deleteListAction` with kind like or save) starting from a
state where the list's `likeCount`/`saveCount` equals the number of rows in
the corresponding join table for that list (and the schema's `(userId,
listId)` uniqueness indexes hold), each operation preserves that equality:
the counter on the list row always equals the live row-count of the
`listLikes`/`listSaves` join table for that list. -/
theorem counter_tracks_rowcount (L : Nat) (ops : List ToggleOp) (db : DB)
    (hu : actionsUnique db) (hc : countersMatch db L) :
    countersMatch (ops.foldl applyToggle db) L :=
  (toggle_fold_preserves L ops db hu hc).2

instance (db : DB) : Decidable (actionsUnique db) := by
  unfold actionsUnique
  infer_instance

instance (db : DB) (L : Nat) : Decidable (countersMatch db L) := by
  unfold countersMatch
  infer_instance

/-- An example list row used by the concrete witnesses. -/
def listRow1 : ListRow :=
  ⟨1, "u1", "My List", 0, 0, "my-list", 0, none⟩

/-- A one-list store with empty join tables. -/
def dbC1 : DB :=
  ⟨[listRow1], [], [], [], [], [], [], [], [], [], [], 1, 1, 1⟩

/-- A sample toggle workload: two likes by different users, one un-like, one
save. -/
def opsC1 : List ToggleOp :=
  [⟨true, "u1", 1, .like⟩, ⟨true, "u2", 1, .like⟩,
    ⟨false, "u1", 1, .like⟩, ⟨true, "u1", 1, .save⟩]

/-- Witness for C1 at a concrete store and workload. -/
theorem counter_tracks_rowcount_witness :
    actionsUnique dbC1 ∧ countersMatch dbC1 1 ∧
      countersMatch (opsC1.foldl applyToggle dbC1) 1 :=
  ⟨by decide, by decide, counter_tracks_rowcount 1 opsC1 dbC1 (by decide) (by decide)⟩

/-- The counter column of the first `list` row with the given id, projected
by action kind (the value callers observe). -/
def counterOf (db : DB) (L : Nat) (f : ActionField) : Option Int :=
  actionResult f (selectCounts db.lists L)

/-- Writing the join table and then the lists leaves the selected join table
at the written value. -/
theorem set_lists_actionTable (db : DB) (f : ActionField)
    (t : List ActionRow) (ls : List ListRow) :
    ({ db.setActionTable f t with lists := ls } : DB).actionTable f = t := by
  cases f <;> rfl

/-- Writing the join table and then the lists leaves the lists at the
written value. -/
theorem set_lists_lists (db : DB) (f : ActionField)
    (t : List ActionRow) (ls : List ListRow) :
    ({ db.setActionTable f t with lists := ls } : DB).lists = ls := by
  cases f <;> rfl

/-- Incrementing the counter column for `f` adds one to the projected
counter value. -/
theorem actionResult_bump (f : ActionField) (l : ListRow) :
    actionResult f (some (bumpCounter f l).counts) =
      (actionResult f (some l.counts)).map (fun c => c + 1) := by
  cases f <;> rfl

/-- C2: For every `(actorId, parentId, kind)` with the pair not yet present,
calling `addListAction` twice in sequence with the same arguments increments
the parent's counter by exactly 1 in total: the second call inserts no join
row and changes no state, returns the same counter value the first call
returned, and the first call returns the old counter plus one. -/
theorem addListAction_idempotent (u : String) (L : Nat) (f : ActionField)
    (db : DB) (hex : ∃ l ∈ db.lists, (l.id == L) = true)
    (habs : ((db.actionTable f).any fun r =>
      r.userId == u && r.listId == L) = false) :
    (addListAction u L f (addListAction u L f db).2).2 =
        (addListAction u L f db).2 ∧
      (addListAction u L f (addListAction u L f db).2).1 =
        (addListAction u L f db).1 ∧
      actionResult f (addListAction u L f db).1 =
        (counterOf db L f).map (fun c => c + 1) := by
  have hfind : ∃ l, db.lists.find? (fun l => l.id == L) = some l := by
    have : (db.lists.find? fun l => l.id == L).isSome := by
      rw [List.find?_isSome]
      exact hex
    exact Option.isSome_iff_exists.mp this
  obtain ⟨l1, hl1⟩ := hfind
  have hl1L : (l1.id == L) = true := by
    have := List.find?_some hl1
    simpa using this
  have hbumpinv : ∀ l : ListRow,
      ((if l.id == L then bumpCounter f l else l).id == L) = (l.id == L) := by
    intro l
    by_cases h : (l.id == L) = true
    · simp [h, bumpCounter_id]
    · simp [h]
  have hfind2 : ((db.lists.map fun l =>
      if l.id == L then bumpCounter f l else l).find? fun l => l.id == L) =
      some (bumpCounter f l1) := by
    rw [find?_map_of_pred_inv hbumpinv, hl1]
    show some (if (l1.id == L) = true then bumpCounter f l1 else l1) =
      some (bumpCounter f l1)
    rw [if_pos hl1L]
  have hstep1 : addListAction u L f db =
      (selectCounts (db.lists.map fun l =>
          if l.id == L then bumpCounter f l else l) L,
        { db.setActionTable f (db.actionTable f ++ [⟨u, L⟩]) with
            lists := db.lists.map fun l =>
              if l.id == L then bumpCounter f l else l }) := by
    simp only [addListAction, habs, Bool.false_eq_true, if_false]
  have hdb2tab : ((addListAction u L f db).2).actionTable f =
      db.actionTable f ++ [⟨u, L⟩] := by
    rw [hstep1]
    exact set_lists_actionTable db f _ _
  have hdb2lists : ((addListAction u L f db).2).lists =
      db.lists.map (fun l => if l.id == L then bumpCounter f l else l) := by
    rw [hstep1]
  have hconf2 : ((((addListAction u L f db).2).actionTable f).any fun r =>
      r.userId == u && r.listId == L) = true := by
    rw [hdb2tab, List.any_append]
    simp
  have hsecond : addListAction u L f (addListAction u L f db).2 =
      (selectCounts ((addListAction u L f db).2).lists L,
        (addListAction u L f db).2) := by
    generalize hgen : (addListAction u L f db).2 = db1 at hconf2 ⊢
    simp only [addListAction, hconf2]
    exact if_pos trivial
  refine ⟨by rw [hsecond], ?_, ?_⟩
  · rw [hsecond, hdb2lists]
    have hfst : (addListAction u L f db).1 =
        selectCounts (db.lists.map fun l =>
          if l.id == L then bumpCounter f l else l) L := by
      rw [hstep1]
    rw [hfst]
  · have hfst : (addListAction u L f db).1 =
        selectCounts (db.lists.map fun l =>
          if l.id == L then bumpCounter f l else l) L := by
      rw [hstep1]
    rw [hfst]
    simp only [counterOf, selectCounts, hfind2, hl1, Option.map_some]
    exact actionResult_bump f l1

/-- Witness for C2: liking a one-list store twice as the same user. -/
theorem addListAction_idempotent_witness :
    (addListAction "u1" 1 .like (addListAction "u1" 1 .like dbC1).2).2 =
        (addListAction "u1" 1 .like dbC1).2 ∧
      (addListAction "u1" 1 .like (addListAction "u1" 1 .like dbC1).2).1 =
        (addListAction "u1" 1 .like dbC1).1 ∧
      actionResult .like (addListAction "u1" 1 .like dbC1).1 =
        (counterOf dbC1 1 .like).map (fun c => c + 1) :=
  addListAction_idempotent "u1" 1 .like dbC1 (by decide) (by decide)

/-- Insert payload of `addListItem` (`typeof listItem.$inferInsert`): the
route fills `movieId`/`seriesId` from `mediaId` according to `mediaType`. -/
structure ItemInsert where
  userId : String
  listId : Nat
  movieId : Option Nat
  seriesId : Option Nat
  mediaType : MediaType
deriving DecidableEq, Repr

/-- The `whereExisting` duplicate test of `addListItem`
(src/services/v1/lists.ts, lines 170–183): same user, list, media type and
the media id column relevant for the type. -/
def whereExisting (d : ItemInsert) (r : ItemRow) : Bool :=
  match d.mediaType with
  | .movie => r.userId == d.userId && r.listId == d.listId &&
      r.mediaType == MediaType.movie && r.movieId == d.movieId
  | .tv => r.userId == d.userId && r.listId == d.listId &&
      r.mediaType == MediaType.tv && r.seriesId == d.seriesId

/-- The `addListItem` (src/services/v1/lists.ts, lines 150–202): inside one
transaction, verify that `listId` belongs to `userId` (else HTTP 403), return
the existing row with `created = false` if the same media is already on the
list, otherwise insert the row and refresh the list's `updatedAt`.  The
`Option` in the result mirrors the service's possible `undefined`. -/
def addListItem (d : ItemInsert) (now : Int) (db : DB) :
    Except HttpErr (Option (Bool × ItemRow) × DB) :=
  match db.lists.find? (fun l => l.id == d.listId && l.userId == d.userId) with
  | none => .error ⟨403, "You do not have permission to modify this list"⟩
  | some _ =>
    match db.listItems.find? (whereExisting d) with
    | some existing => .ok (some (false, existing), db)
    | none =>
      let inserted : ItemRow :=
        ⟨db.nextItemId, d.userId, d.listId, d.movieId, d.seriesId,
          d.mediaType, now⟩
      let lists2 := db.lists.map (fun l =>
        if l.id == d.listId then { l with updatedAt := some now } else l)
      .ok (some (true, inserted),
        { db with
            listItems := db.listItems ++ [inserted]
            lists := lists2
            nextItemId := db.nextItemId + 1 })

/-- Membership test for the claim: a row for the same `(listId, mediaType,
mediaId)` triple, regardless of owner. -/
def tripleMatch (d : ItemInsert) (r : ItemRow) : Bool :=
  match d.mediaType with
  | .movie => r.listId == d.listId && r.mediaType == MediaType.movie &&
      r.movieId == d.movieId
  | .tv => r.listId == d.listId && r.mediaType == MediaType.tv &&
      r.seriesId == d.seriesId

/-- If nothing in the prefix matches, `find?` over an append searches the
suffix. -/
theorem find?_append_of_none {α : Type} {p : α → Bool} {l1 l2 : List α}
    (h : l1.find? p = none) : (l1 ++ l2).find? p = l2.find? p := by
  induction l1 with
  | nil => simp
  | cons a t ih =>
    rw [List.find?_cons] at h
    rcases hpa : p a with _ | _
    · rw [List.cons_append, List.find?_cons_of_neg _ (by simp [hpa])]
      rw [hpa] at h
      exact ih h
    · rw [hpa] at h
      simp at h

/-- C3: For an actor who owns the target list and a `(listId, mediaType,
mediaId)` triple not yet on the list, calling `addListItem` twice with
identical arguments returns `created = true` with the inserted row the first
time and `created = false` with that same row the second time, and afterwards
the `listItem` table contains exactly one row for the triple. -/
theorem addListItem_idempotent (d : ItemInsert) (now1 now2 : Int) (db : DB)
    (howned : (db.lists.find? fun l =>
      l.id == d.listId && l.userId == d.userId).isSome)
    (hfresh : db.listItems.countP (tripleMatch d) = 0) :
    ∃ row1 : ItemRow, ∃ db1 : DB,
      addListItem d now1 db = .ok (some (true, row1), db1) ∧
        addListItem d now2 db1 = .ok (some (false, row1), db1) ∧
        db1.listItems.countP (tripleMatch d) = 1 := by
  have hexist_imp : ∀ r, whereExisting d r = true → tripleMatch d r = true := by
    intro r hr
    cases hmt : d.mediaType <;>
      (simp only [whereExisting, hmt, Bool.and_eq_true] at hr
       simp only [tripleMatch, hmt, Bool.and_eq_true]
       exact ⟨⟨hr.1.1.2, hr.1.2⟩, hr.2⟩)
  have hnone1 : db.listItems.find? (whereExisting d) = none := by
    rw [List.find?_eq_none]
    intro x hx hpx
    exact (List.countP_eq_zero.mp hfresh x hx) (hexist_imp x hpx)
  obtain ⟨l0, hl0⟩ := Option.isSome_iff_exists.mp howned
  refine ⟨⟨db.nextItemId, d.userId, d.listId, d.movieId, d.seriesId,
    d.mediaType, now1⟩,
    { db with
        listItems := db.listItems ++
          [⟨db.nextItemId, d.userId, d.listId, d.movieId, d.seriesId,
            d.mediaType, now1⟩],
        lists := db.lists.map (fun l =>
          if l.id == d.listId then { l with updatedAt := some now1 } else l),
        nextItemId := db.nextItemId + 1 }, ?_, ?_, ?_⟩
  · simp only [addListItem, hl0, hnone1]
  · have hpredinv : ∀ l : ListRow,
        (((if l.id == d.listId then { l with updatedAt := some now1 } else l).id
            == d.listId) &&
          ((if l.id == d.listId then { l with updatedAt := some now1 } else l).userId
            == d.userId)) = (l.id == d.listId && l.userId == d.userId) := by
      intro l
      by_cases h : (l.id == d.listId) = true
      · simp [h]
      · simp [h]
    have howned2 : (db.lists.map (fun l =>
        if l.id == d.listId then { l with updatedAt := some now1 } else l)).find?
          (fun l => l.id == d.listId && l.userId == d.userId) =
        some (if l0.id == d.listId then { l0 with updatedAt := some now1 }
          else l0) := by
      rw [find?_map_of_pred_inv hpredinv, hl0]
      rfl
    have hrow1 : whereExisting d
        ⟨db.nextItemId, d.userId, d.listId, d.movieId, d.seriesId,
          d.mediaType, now1⟩ = true := by
      cases hmt : d.mediaType <;> simp [whereExisting, hmt]
    have hfind2 : (db.listItems ++
        [(⟨db.nextItemId, d.userId, d.listId, d.movieId, d.seriesId,
          d.mediaType, now1⟩ : ItemRow)]).find? (whereExisting d) =
        some ⟨db.nextItemId, d.userId, d.listId, d.movieId, d.seriesId,
          d.mediaType, now1⟩ := by
      rw [find?_append_of_none hnone1, List.find?_cons_of_pos _ hrow1]
    simp only [addListItem, howned2, hfind2]
  · have hrow1 : tripleMatch d
        ⟨db.nextItemId, d.userId, d.listId, d.movieId, d.seriesId,
          d.mediaType, now1⟩ = true := by
      cases hmt : d.mediaType <;> simp [tripleMatch, hmt]
    simp only [List.countP_append, hfresh, List.countP_cons, List.countP_nil,
      hrow1]
    simp

/-- C3 witness payload: user u1 adds movie 603 to list 1. -/
def dC3 : ItemInsert := ⟨"u1", 1, some 603, none, .movie⟩

/-- Witness for C3 on the concrete one-list store. -/
theorem addListItem_idempotent_witness :
    (dbC1.lists.find? fun l =>
      l.id == dC3.listId && l.userId == dC3.userId).isSome ∧
      dbC1.listItems.countP (tripleMatch dC3) = 0 ∧
      (∃ row1 : ItemRow, ∃ db1 : DB,
        addListItem dC3 100 dbC1 = .ok (some (true, row1), db1) ∧
          addListItem dC3 200 db1 = .ok (some (false, row1), db1) ∧
          db1.listItems.countP (tripleMatch dC3) = 1) :=
  ⟨by decide, by decide,
    addListItem_idempotent dC3 100 200 dbC1 (by decide) (by decide)⟩

/-- The result object of `trackUniqueView`. -/
structure ViewResult where
  success : Bool
  alreadyViewed : Bool
  message : String
deriving DecidableEq, Repr

/-- The `24 * 60 * 60 * 1000` milliseconds. -/
def dayMs : Int := 24 * 60 * 60 * 1000

/-- The `identityOr` predicate of `trackUniqueView`
(src/services/v1/lists.ts, lines 424–431), built from the optional user id
and the already-hashed address: match on whichever components are defined.
The all-absent case cannot be reached behind the input guard; there the code
builds a `whereClause` with no identity condition, which every row
satisfies. -/
def identityPred (userId hashedIp : Option String) : ViewRow → Bool :=
  match userId, hashedIp with
  | some u, some h => fun v => v.userId == some u || v.ipAddress == some h
  | some u, none => fun v => v.userId == some u
  | none, some h => fun v => v.ipAddress == some h
  | none, none => fun _ => true

/-- The `trackUniqueView` (src/services/v1/lists.ts, lines 401–466): no-op on
missing list id or fully absent identity; otherwise look for a `listView`
row of the list within the last 24 hours matching the identity; insert a new
row only when none exists. -/
def trackUniqueView (hash : String → String) (listId : Nat)
    (ipAddress : Option String) (userId : Option String) (now : Int)
    (db : DB) : ViewResult × DB :=
  if listId == 0 || (userId.isNone && ipAddress.isNone) then
    (⟨false, false, "Invalid input: unable to store view."⟩, db)
  else
    let oneDayAgo := now - dayMs
    let hashedIp := ipAddress.map hash
    let existingView := db.listViews.filter (fun v =>
      v.listId == listId && decide (oneDayAgo ≤ v.createdAt) &&
        identityPred userId hashedIp v)
    if existingView.isEmpty then
      let row : ViewRow := ⟨db.nextViewId, userId, listId, hashedIp, now⟩
      (⟨true, false, "View logged successfully."⟩,
        { db with listViews := db.listViews ++ [row]
                  nextViewId := db.nextViewId + 1 })
    else
      (⟨true, true, "View already logged within the last 24 hours."⟩, db)

/-- Rows of a list that match the request identity, with no time window:
used to express that the identity has never viewed the list. -/
def identityViewCount (hash : String → String) (listId : Nat)
    (ipAddress : Option String) (userId : Option String) (db : DB) : Nat :=
  db.listViews.countP (fun v =>
    v.listId == listId && identityPred userId (ipAddress.map hash) v)

/-- C5: For every `(listId, identity)` with at least one identity component
present, a positive listId and no prior view row for that identity, calling
`trackUniqueView` twice within 24 hours inserts exactly one `listView` row:
the second call finds the row inserted by the first call inside the 24-hour
window and reports it as already viewed instead of inserting. -/
theorem trackUniqueView_dedup (hash : String → String) (L : Nat)
    (ip : Option String) (u : Option String) (t1 t2 : Int) (db : DB)
    (hL : 0 < L) (hid : u.isSome ∨ ip.isSome)
    (ht1 : t1 ≤ t2) (ht2 : t2 - t1 < dayMs)
    (hfresh : identityViewCount hash L ip u db = 0) :
    ∃ db1 : DB,
      trackUniqueView hash L ip u t1 db =
          (⟨true, false, "View logged successfully."⟩, db1) ∧
        trackUniqueView hash L ip u t2 db1 =
          (⟨true, true, "View already logged within the last 24 hours."⟩,
            db1) ∧
        identityViewCount hash L ip u db1 = 1 := by
  have hguard : (L == 0 || (u.isNone && ip.isNone)) = false := by
    have h1 : (L == 0) = false := by
      simp only [beq_eq_false_iff_ne]
      omega
    have h2 : (u.isNone && ip.isNone) = false := by
      rcases hid with h | h
      · rcases u with _ | u0
        · simp at h
        · simp
      · rcases ip with _ | ip0
        · simp at h
        · simp
    rw [h1, h2]
    rfl
  have hnomatch : ∀ v ∈ db.listViews,
      ¬(v.listId == L && identityPred u (ip.map hash) v) = true := by
    intro v hv
    exact List.countP_eq_zero.mp hfresh v hv
  have hfilter1 : db.listViews.filter (fun v =>
      v.listId == L && decide (t1 - dayMs ≤ v.createdAt) &&
        identityPred u (ip.map hash) v) = [] := by
    rw [List.filter_eq_nil_iff]
    intro v hv hp
    simp only [Bool.and_eq_true] at hp
    exact hnomatch v hv (by simp only [Bool.and_eq_true]; exact ⟨hp.1.1, hp.2⟩)
  have hrowid : identityPred u (ip.map hash)
      ⟨db.nextViewId, u, L, ip.map hash, t1⟩ = true := by
    rcases u with _ | u0 <;> rcases ip with _ | ip0
    · rcases hid with h | h <;> simp at h
    · simp [identityPred]
    · simp [identityPred]
    · simp [identityPred]
  refine ⟨{ db with
      listViews := db.listViews ++ [⟨db.nextViewId, u, L, ip.map hash, t1⟩]
      nextViewId := db.nextViewId + 1 }, ?_, ?_, ?_⟩
  · simp only [trackUniqueView, hguard, Bool.false_eq_true, if_false,
      hfilter1, List.isEmpty_nil, if_true]
  · have hfilter2 : (db.listViews ++
        [(⟨db.nextViewId, u, L, ip.map hash, t1⟩ : ViewRow)]).filter (fun v =>
        v.listId == L && decide (t2 - dayMs ≤ v.createdAt) &&
          identityPred u (ip.map hash) v) =
        [⟨db.nextViewId, u, L, ip.map hash, t1⟩] := by
      rw [List.filter_append]
      have hleft : db.listViews.filter (fun v =>
          v.listId == L && decide (t2 - dayMs ≤ v.createdAt) &&
            identityPred u (ip.map hash) v) = [] := by
        rw [List.filter_eq_nil_iff]
        intro v hv hp
        simp only [Bool.and_eq_true] at hp
        exact hnomatch v hv
          (by simp only [Bool.and_eq_true]; exact ⟨hp.1.1, hp.2⟩)
      rw [hleft]
      simp [List.filter_cons, hrowid]
      omega
    simp only [trackUniqueView, hguard, Bool.false_eq_true, if_false,
      hfilter2]
    rfl
  · have hrow : ((⟨db.nextViewId, u, L, ip.map hash, t1⟩ : ViewRow).listId
        == L && identityPred u (ip.map hash)
          ⟨db.nextViewId, u, L, ip.map hash, t1⟩) = true := by
      simp [hrowid]
    simp only [identityViewCount, List.countP_append, List.countP_cons,
      List.countP_nil]
    simp only [identityViewCount] at hfresh
    rw [hfresh, hrow]
    rfl

/-- Witness for C5: an authenticated view of list 1 recorded at time 0 and
deduplicated at time 1000. -/
theorem trackUniqueView_dedup_witness :
    0 < 1 ∧ ((some "u1" : Option String).isSome ∨
        (some "1.2.3.4" : Option String).isSome) ∧
      (0 : Int) ≤ 1000 ∧ (1000 : Int) - 0 < dayMs ∧
      identityViewCount id 1 (some "1.2.3.4") (some "u1") dbC1 = 0 ∧
      (∃ db1 : DB,
        trackUniqueView id 1 (some "1.2.3.4") (some "u1") 0 dbC1 =
            (⟨true, false, "View logged successfully."⟩, db1) ∧
          trackUniqueView id 1 (some "1.2.3.4") (some "u1") 1000 db1 =
            (⟨true, true, "View already logged within the last 24 hours."⟩,
              db1) ∧
          identityViewCount id 1 (some "1.2.3.4") (some "u1") db1 = 1) :=
  ⟨by decide, by decide, by decide, by decide, by decide,
    trackUniqueView_dedup id 1 (some "1.2.3.4") (some "u1") 0 1000 dbC1
      (by decide) (by decide) (by decide) (by decide) (by decide)⟩

/-- The `"movie" | "tv" | "list"` content-type union of the slug module. -/
inductive ContentType where
  | movie
  | tv
  | list
deriving DecidableEq, Repr

/-- Splits a character list into maximal space-free words, dropping empty
runs; `acc` holds the current word reversed. -/
def wordsAux : List Char → List Char → List (List Char)
  | acc, [] => if acc.isEmpty then [] else [acc.reverse]
  | acc, c :: rest =>
    if c = ' ' then
      if acc.isEmpty then wordsAux [] rest
      else acc.reverse :: wordsAux [] rest
    else wordsAux (c :: acc) rest

/-- Joins words with single hyphens. -/
def hyphenate : List (List Char) → List Char
  | [] => []
  | [w] => w
  | w :: ws => w ++ '-' :: hyphenate ws

/-- The `slugify(title, { lower: true, strict: true })` restricted to ASCII
input: keep alphanumerics and spaces, lowercase, split on whitespace and
join the words with hyphens.  (The npm package's Unicode character map is
not modelled; every input in this development is ASCII.) -/
def slugify (s : String) : String :=
  let kept := s.toList.filter (fun c => c.isAlphanum || c == ' ')
  let lowered := kept.map Char.toLower
  String.mk (hyphenate (wordsAux [] lowered))

/-- Equality of `Except` results is decidable componentwise. -/
def exceptDecEq {ε α : Type} [DecidableEq ε] [DecidableEq α] :
    (a b : Except ε α) → Decidable (a = b)
  | .ok a, .ok b =>
    if h : a = b then .isTrue (by rw [h])
    else .isFalse (by intro hx; cases hx; exact h rfl)
  | .ok _, .error _ => .isFalse (by intro hx; cases hx)
  | .error _, .ok _ => .isFalse (by intro hx; cases hx)
  | .error e, .error f =>
    if h : e = f then .isTrue (by rw [h])
    else .isFalse (by intro hx; cases hx; exact h rfl)

instance {ε α : Type} [DecidableEq ε] [DecidableEq α] :
    DecidableEq (Except ε α) :=
  exceptDecEq

/-- The `slugExists` (src/lib/slug.ts, lines 50–85) — the Boolean result of the
query.  The query is `SELECT * FROM table INNER JOIN list_slug_history ON
list_slug_history.old_slug = slug WHERE ...`: the join condition mentions
only the history table, so the result is the filtered cross product of the
content table with the matching history rows, and the function returns
whether that product is non-empty. -/
def slugExists (s : String) (ct : ContentType) (userId : String)
    (db : DB) : Bool :=
  match ct with
  | .list =>
    db.lists.any fun t => db.listSlugHistory.any fun h =>
      h.oldSlug == s && (t.slug == s || h.oldSlug == s) && t.userId == userId
  | .movie =>
    db.movies.any fun t => db.listSlugHistory.any fun h =>
      h.oldSlug == s && (t.slug == some s || h.oldSlug == s)
  | .tv =>
    db.tvs.any fun t => db.listSlugHistory.any fun h =>
      h.oldSlug == s && (t.slug == some s || h.oldSlug == s)

/-- The candidate sequence of `generateSlug`'s collision loop: the base slug
first, then `base-1`, `base-2`, … -/
def candidate (base : String) (k : Nat) : String :=
  if k = 0 then base else base ++ "-" ++ toString k

/-- The `while (await slugExists(uniqueSlug, …))` loop of `generateSlug`
(src/lib/slug.ts, lines 32–38), embedded with explicit fuel: `none` means
the fuel ran out before a free candidate was found (the TypeScript loop has
no bound of its own and would still be running). -/
def genLoop (base : String) (ct : ContentType) (u : String) (db : DB) :
    Nat → Nat → Option String
  | 0, _ => none
  | fuel + 1, k =>
    if slugExists (candidate base k) ct u db then
      genLoop base ct u db fuel (k + 1)
    else
      some (candidate base k)

/-- The `generateSlug` (src/lib/slug.ts, lines 15–41): validate the title, then
run the collision loop from the slugified base.  The `userId` guard that
`slugExists` performs for the list content type on every call is hoisted
here: the loop body always executes at least once, so a missing user id
throws before anything else happens. -/
def generateSlug (title : String) (ct : ContentType) (userId : String)
    (fuel : Nat) (db : DB) : Except HttpErr (Option String) :=
  if title.length > 100 || title == "" then
    .error ⟨400, "Invalid title or content type provided."⟩
  else if ct == ContentType.list && userId == "" then
    .error ⟨400, "Please provide a valid user ID."⟩
  else
    .ok (genLoop (slugify title) ct userId db fuel 0)

/-- If the first `m` candidates starting at `k` are all taken and candidate
`k + m` is free, the loop returns candidate `k + m` given fuel beyond `m`. -/
theorem genLoop_first_free (base : String) (ct : ContentType) (u : String)
    (db : DB) (m : Nat) :
    ∀ fuel k, (∀ j, j < m → slugExists (candidate base (k + j)) ct u db = true) →
      slugExists (candidate base (k + m)) ct u db = false → m < fuel →
      genLoop base ct u db fuel k = some (candidate base (k + m)) := by
  induction m with
  | zero =>
    intro fuel k _ hfree hfuel
    obtain ⟨n, rfl⟩ : ∃ n, fuel = n + 1 := ⟨fuel - 1, by omega⟩
    simp only [genLoop]
    rw [Nat.add_zero] at hfree
    rw [if_neg (by simp [hfree])]
    simp
  | succ m ih =>
    intro fuel k htaken hfree hfuel
    obtain ⟨n, rfl⟩ : ∃ n, fuel = n + 1 := ⟨fuel - 1, by omega⟩
    simp only [genLoop]
    rw [if_pos (by simpa using htaken 0 (Nat.succ_pos m))]
    have h2 := ih n (k + 1)
      (fun j hj => by
        have := htaken (j + 1) (by omega)
        simpa [Nat.add_assoc, Nat.add_comm 1 j] using this)
      (by
        have heq : k + 1 + m = k + (m + 1) := by omega
        rw [heq]
        exact hfree)
      (by omega)
    rw [h2]
    have heq2 : k + 1 + m = k + (m + 1) := by omega
    rw [heq2]

/-- If the first `m` candidates starting at `k` are all taken, fuel `m` runs
out with no result. -/
theorem genLoop_exhausts (base : String) (ct : ContentType) (u : String)
    (db : DB) :
    ∀ fuel k, (∀ j, j < fuel → slugExists (candidate base (k + j)) ct u db = true) →
      genLoop base ct u db fuel k = none := by
  intro fuel
  induction fuel with
  | zero => intro k _; rfl
  | succ n ih =>
    intro k htaken
    simp only [genLoop]
    rw [if_pos (by simpa using htaken 0 (Nat.succ_pos n))]
    exact ih (k + 1) (fun j hj => by
      have := htaken (j + 1) (by omega)
      simpa [Nat.add_assoc, Nat.add_comm 1 j] using this)

/-- A fully empty store. -/
def dbEmpty : DB :=
  ⟨[], [], [], [], [], [], [], [], [], [], [], 1, 1, 1⟩

/-- The store after the first allocated slug `the-matrix` has been persisted
on user u1's list; the slug-history table is still empty. -/
def dbMatrix : DB :=
  { dbEmpty with lists := [⟨1, "u1", "The Matrix", 0, 0, "the-matrix", 0, none⟩] }

/-- C4 evidence: with an empty history table, `slugExists` is blind to the
live `slug` column — its inner join on `list_slug_history.old_slug` empties
the result — so a second `allocate("The Matrix", "list", u1)` returns
`the-matrix` again instead of `the-matrix-1`. -/
theorem generateSlug_repeats_taken_slug :
    generateSlug "The Matrix" ContentType.list "u1" 10 dbEmpty =
        .ok (some "the-matrix") ∧
      generateSlug "The Matrix" ContentType.list "u1" 10 dbMatrix =
        .ok (some "the-matrix") ∧
      (dbMatrix.lists.any fun t =>
        t.slug == "the-matrix" && t.userId == "u1") = true ∧
      slugExists "the-matrix" ContentType.list "u1" dbMatrix = false ∧
      "the-matrix" ≠ "the-matrix-1" := by
  refine ⟨by decide, by decide, by decide, by decide, by decide⟩

/-- A store in which user u1 owns one list and the history table holds the
first `K` candidate slugs for base `the-matrix`, forcing `K` collision-loop
iterations. -/
def dbTakenUpTo (K : Nat) : DB :=
  { dbEmpty with
      lists := [listRow1]
      listSlugHistory := (List.range K).map
        (fun i => ⟨i, 1, candidate "the-matrix" i, 0⟩) }

/-- In `dbTakenUpTo K` every candidate below `K` is reported taken. -/
theorem dbTakenUpTo_taken (K j : Nat) (hj : j < K) :
    slugExists (candidate "the-matrix" j) ContentType.list "u1"
      (dbTakenUpTo K) = true := by
  simp only [slugExists, dbTakenUpTo]
  refine List.any_eq_true.mpr ⟨listRow1, by simp, ?_⟩
  refine List.any_eq_true.mpr ⟨⟨j, 1, candidate "the-matrix" j, 0⟩, ?_, ?_⟩
  · exact List.mem_map.mpr ⟨j, List.mem_range.mpr hj, rfl⟩
  · simp [listRow1]

/-- C9 counterexample: no fixed iteration cap bounds the collision loop —
for every candidate cap `K` there is a store on which the loop is still
running after `K` iterations (and the code raises no error instead: it
simply keeps looping). -/
theorem genLoop_no_fixed_cap :
    ¬ ∃ K : Nat, ∀ db : DB,
      genLoop "the-matrix" ContentType.list "u1" db K 0 ≠ none := by
  rintro ⟨K, hK⟩
  refine hK (dbTakenUpTo K) ?_
  refine genLoop_exhausts "the-matrix" ContentType.list "u1" (dbTakenUpTo K)
    K 0 ?_
  intro j hj
  rw [Nat.zero_add]
  exact dbTakenUpTo_taken K j hj

/-- C9 amended: the collision loop has no hard cap and raises no taxonomy
error; for every store in which some candidate is free, `generateSlug`
terminates and returns the first free candidate of the sequence `base`,
`base-1`, `base-2`, …, the iteration count being bounded only by the store
contents, not by any fixed constant. -/
theorem generateSlug_returns_first_free (title : String) (u : String)
    (ct : ContentType) (db : DB) (k fuel : Nat)
    (hvalid : (title.length > 100 || title == "") = false)
    (huser : (ct == ContentType.list && u == "") = false)
    (htaken : ∀ j, j < k →
      slugExists (candidate (slugify title) j) ct u db = true)
    (hfree : slugExists (candidate (slugify title) k) ct u db = false)
    (hfuel : k < fuel) :
    generateSlug title ct u fuel db =
      .ok (some (candidate (slugify title) k)) := by
  have hloop := genLoop_first_free (slugify title) ct u db k fuel 0
    (fun j hj => by simpa using htaken j hj)
    (by simpa using hfree) hfuel
  rw [Nat.zero_add] at hloop
  simp only [generateSlug, hvalid, huser, Bool.false_eq_true, if_false,
    hloop]

/-- Witness for the amended C9 on `dbTakenUpTo 1`: one collision, result
`the-matrix-1`, no error. -/
theorem generateSlug_returns_first_free_witness :
    ("The Matrix".length > 100 || "The Matrix" == "") = false ∧
      (ContentType.list == ContentType.list && "u1" == "") = false ∧
      (∀ j, j < 1 → slugExists (candidate (slugify "The Matrix") j)
        ContentType.list "u1" (dbTakenUpTo 1) = true) ∧
      slugExists (candidate (slugify "The Matrix") 1) ContentType.list "u1"
        (dbTakenUpTo 1) = false ∧
      generateSlug "The Matrix" ContentType.list "u1" 5 (dbTakenUpTo 1) =
        .ok (some (candidate (slugify "The Matrix") 1)) :=
  ⟨by decide, by decide, by decide, by decide,
    generateSlug_returns_first_free "The Matrix" "u1" ContentType.list
      (dbTakenUpTo 1) 1 5 (by decide) (by decide) (by decide) (by decide)
      (by decide)⟩

/-- Referential `onDelete` actions available in the schema. -/
inductive FkAction where
  | cascade
  | noAction
deriving DecidableEq, Repr

/-- The `onDelete` declared for `list_item.list_id → list.id`
(schema.ts, lines 200–205). -/
def listItemFk : FkAction := .noAction

/-- The `onDelete` declared for `list_likes.list_id → list.id`
(schema.ts, lines 241–246). -/
def listLikesFk : FkAction := .noAction

/-- The `onDelete` declared for `list_saves.list_id → list.id`
(schema.ts, lines 267–272). -/
def listSavesFk : FkAction := .noAction

/-- The `onDelete` declared for `list_views.list_id → list.id`
(schema.ts, lines 291–296). -/
def listViewFk : FkAction := .noAction

/-- The `onDelete` declared for `list_slug_history.list_id → list.id`
(schema.ts, lines 183–188). -/
def listSlugHistoryFk : FkAction := .noAction

/-- Storage-level referential action on deleting a referenced row: a
`cascade` constraint removes the referencing rows, a `no action` constraint
rejects the delete whenever a referencing row remains. -/
def applyOnDelete {α : Type} (act : FkAction) (rows : List α)
    (refsDeleted : α → Bool) : Except String (List α) :=
  match act with
  | .cascade => .ok (rows.filter (fun r => !refsDeleted r))
  | .noAction =>
    if rows.any refsDeleted then .error "foreign key violation"
    else .ok rows

/-- Errors surfaced by `deleteList`: the service's own `HttpError`s or a
storage-level foreign-key rejection of the row delete. -/
inductive DeleteErr where
  | http (e : HttpErr)
  | fk (table : String)
deriving DecidableEq, Repr

/-- The `deleteList` (src/services/v1/lists.ts, lines 117–137): select the list
by owner and id (404 `List not found` when absent), then delete the row.
The fate of the dependent rows is decided by the schema's `onDelete`
declarations, applied here table by table. -/
def deleteList (userId : String) (listId : Nat) (db : DB) :
    Except DeleteErr (ListRow × DB) :=
  match db.lists.find? (fun l => l.userId == userId && l.id == listId) with
  | none => .error (.http ⟨404, "List not found"⟩)
  | some listRecord =>
    let refs : Nat → Bool := fun lid => lid == listId
    match applyOnDelete listItemFk db.listItems (fun r => refs r.listId) with
    | .error _ => .error (.fk "list_item")
    | .ok items2 =>
    match applyOnDelete listLikesFk db.listLikes (fun r => refs r.listId) with
    | .error _ => .error (.fk "list_likes")
    | .ok likes2 =>
    match applyOnDelete listSavesFk db.listSaves (fun r => refs r.listId) with
    | .error _ => .error (.fk "list_saves")
    | .ok saves2 =>
    match applyOnDelete listViewFk db.listViews (fun r => refs r.listId) with
    | .error _ => .error (.fk "list_views")
    | .ok views2 =>
    match applyOnDelete listSlugHistoryFk db.listSlugHistory
        (fun r => refs r.listId) with
    | .error _ => .error (.fk "list_slug_history")
    | .ok hist2 =>
      .ok (listRecord,
        { db with
            lists := db.lists.filter
              (fun l => !(l.id == listId && l.userId == userId))
            listItems := items2
            listLikes := likes2
            listSaves := saves2
            listViews := views2
            listSlugHistory := hist2 })

/-- A store where u1's list 1 still has one item, one like and one view. -/
def dbWithDependents : DB :=
  { dbC1 with
      listItems := [⟨1, "u1", 1, some 603, none, .movie, 0⟩]
      listLikes := [⟨"u2", 1⟩]
      listViews := [⟨1, some "u2", 1, none, 0⟩] }

/-- C7 evidence: every one of the five referencing tables declares
`onDelete: "no action"`, so deleting a list that still has dependent rows is
rejected by the first foreign-key constraint instead of cascading, and the
dependent rows remain. -/
theorem deleteList_does_not_cascade :
    listItemFk = .noAction ∧ listLikesFk = .noAction ∧
      listSavesFk = .noAction ∧ listViewFk = .noAction ∧
      listSlugHistoryFk = .noAction ∧
      deleteList "u1" 1 dbWithDependents = .error (.fk "list_item") ∧
      dbWithDependents.listItems.countP (fun r => r.listId == 1) = 1 := by
  refine ⟨rfl, rfl, rfl, rfl, rfl, by decide, by decide⟩

/-- The `updateList` service (src/services/v1/lists.ts, lines 69–108):
select the list by owner and id (404 `List not found` when absent); when the
name actually changes, append the old slug to the history, allocate a new
slug with `generateSlug`, and update name/slug/`updatedAt`.  `generateSlug`
runs on the pooled `db` handle, not the transaction, so it queries the state
from before the uncommitted history insert.  The outer `Option` is the fuel
artifact of `generateSlug`'s unbounded loop: `none` means the loop was still
running. -/
def updateList (userId : String) (listId : Nat) (newName : String)
    (now : Int) (fuel : Nat) (db : DB) :
    Option (Except HttpErr (ListRow × DB)) :=
  match db.lists.find? (fun l => l.userId == userId && l.id == listId) with
  | none => some (.error ⟨404, "List not found"⟩)
  | some listRecord =>
    if newName != "" && newName != listRecord.name then
      let db2 : DB := { db with
        listSlugHistory := db.listSlugHistory ++
          [⟨db.nextHistoryId, listRecord.id, listRecord.slug, now⟩]
        nextHistoryId := db.nextHistoryId + 1 }
      match generateSlug newName ContentType.list userId fuel db with
      | .error e => some (.error e)
      | .ok none => none
      | .ok (some newSlug) =>
        let lists2 := db2.lists.map (fun l =>
          if l.userId == userId && l.id == listId then
            { l with name := newName, slug := newSlug, updatedAt := some now }
          else l)
        match lists2.find? (fun l => l.userId == userId && l.id == listId) with
        | some updated => some (.ok (updated, { db2 with lists := lists2 }))
        | none => some (.ok (listRecord, { db2 with lists := lists2 }))
    else
      some (.ok (listRecord, db))

/-- C8 counterexample: on a store with no lists at all, the delete path
reports 404 `List not found` but the add-item path reports 403 `You do not
have permission to modify this list` — not the single "not found" signal the
claim asserts for all three operations. -/
theorem ownership_error_not_uniform :
    deleteList "u1" 1 dbEmpty = .error (.http ⟨404, "List not found"⟩) ∧
      addListItem dC3 0 dbEmpty =
        .error ⟨403, "You do not have permission to modify this list"⟩ ∧
      (⟨403, "You do not have permission to modify this list"⟩ : HttpErr) ≠
        ⟨404, "List not found"⟩ := by
  refine ⟨by decide, by decide, by decide⟩

/-- C8 amended: each ownership-checking operation collapses "list does not
exist" and "list owned by a different actor" into one fixed outward signal,
so a non-owner cannot distinguish the two cases; the signal is 404 `List not
found` for update and delete but 403 `You do not have permission to modify
this list` for add-item. -/
theorem ownership_check_collapsed (u : String) (L : Nat) (d : ItemInsert)
    (newName : String) (now1 now2 : Int) (fuel : Nat) (db : DB)
    (hno : ∀ l ∈ db.lists, ¬(l.id = L ∧ l.userId = u))
    (hd1 : d.listId = L) (hd2 : d.userId = u) :
    deleteList u L db = .error (.http ⟨404, "List not found"⟩) ∧
      updateList u L newName now1 fuel db =
        some (.error ⟨404, "List not found"⟩) ∧
      addListItem d now2 db =
        .error ⟨403, "You do not have permission to modify this list"⟩ := by
  have hfind1 : db.lists.find? (fun l => l.userId == u && l.id == L) = none := by
    rw [List.find?_eq_none]
    intro l hl hp
    simp only [Bool.and_eq_true, beq_iff_eq] at hp
    exact hno l hl ⟨hp.2, hp.1⟩
  have hfind2 : db.lists.find? (fun l => l.id == d.listId && l.userId == d.userId)
      = none := by
    rw [List.find?_eq_none]
    intro l hl hp
    simp only [Bool.and_eq_true, beq_iff_eq, hd1, hd2] at hp
    exact hno l hl ⟨hp.1, hp.2⟩
  refine ⟨?_, ?_, ?_⟩
  · simp only [deleteList, hfind1]
  · simp only [updateList, hfind1]
  · simp only [addListItem, hfind2]

/-- A store whose only list belongs to u2: for actor u1 this is the
"exists but foreign-owned" case of C8. -/
def dbForeign : DB :=
  { dbEmpty with lists := [⟨1, "u2", "Their List", 0, 0, "their-list", 0, none⟩] }

/-- Witness for the amended C8 at the foreign-owned store. -/
theorem ownership_check_collapsed_witness :
    (∀ l ∈ dbForeign.lists, ¬(l.id = 1 ∧ l.userId = "u1")) ∧
      (deleteList "u1" 1 dbForeign = .error (.http ⟨404, "List not found"⟩) ∧
        updateList "u1" 1 "New Name" 0 10 dbForeign =
          some (.error ⟨404, "List not found"⟩) ∧
        addListItem dC3 0 dbForeign =
          .error ⟨403, "You do not have permission to modify this list"⟩) :=
  ⟨by decide,
    ownership_check_collapsed "u1" 1 dC3 "New Name" 0 0 10 dbForeign
      (by decide) (by decide) (by decide)⟩

/-- Result of JavaScript `Number(raw.trim())` on a rating string, with the
string-to-number parse abstracted to its outcome: `NaN`, an infinity, or a
finite value (embedded as an exact rational; IEEE rounding of the decimal
literal is not modelled — it is far below the validator's `1e-9`
tolerance). -/
inductive JsNum where
  | nan
  | posInf
  | negInf
  | fin (q : Rat)
deriving DecidableEq, Repr

/-- JavaScript `Math.round`: round half towards positive infinity,
`⌊x + 1/2⌋`. -/
def jsRound (q : Rat) : Int := ⌊q + 1 / 2⌋

/-- The `validateRating` (src/lib/validate-rating.ts): `null` (here `none`) for
success.  Rejects NaN, values outside `[1, 10]` (both infinities fall to the
range test, which they fail), and values farther than `1e-9` from
`Math.round(val * 2) / 2`. -/
def validateRating (v : JsNum) : Option String :=
  match v with
  | .nan => some "Rating must be a valid number"
  | .posInf => some "Rating must be between 1 and 10"
  | .negInf => some "Rating must be between 1 and 10"
  | .fin val =>
    if val < 1 || val > 10 then some "Rating must be between 1 and 10"
    else
      let roundedToHalf : Rat := (jsRound (val * 2) : Rat) / 2
      if |val - roundedToHalf| > 1 / 1000000000 then
        some "Rating must be in 0.5 increments"
      else none

/-- The review table for a media type (`getReviewTables`). -/
def DB.reviewTable (db : DB) : MediaType → List ReviewRow
  | .movie => db.movieReviews
  | .tv => db.tvReviews

/-- Writes back the review table for a media type. -/
def DB.setReviewTable (db : DB) (mt : MediaType) (t : List ReviewRow) : DB :=
  match mt with
  | .movie => { db with movieReviews := t }
  | .tv => { db with tvReviews := t }

/-- Postgres rounding of a numeric input to a column's scale: half away
from zero. -/
def roundHalfAwayFromZero (q : Rat) : Int :=
  if 0 ≤ q then ⌊q + 1 / 2⌋ else -(⌊-q + 1 / 2⌋)

/-- Storage semantics of the `numeric(2, 1)` rating column (schema.ts,
lines 109 and 148): the value is rounded to one decimal place, and with
precision 2 and scale 1 at most one digit may remain before the decimal
point, so any value whose rounded magnitude reaches 10 is rejected with a
numeric-field overflow. -/
def numericStore21 (q : Rat) : Except String Rat :=
  let scaled := roundHalfAwayFromZero (q * 10)
  if 100 ≤ scaled.natAbs then .error "numeric field overflow"
  else .ok ((scaled : Rat) / 10)

/-- Errors surfaced by `addReview`: the service's own `HttpError` for
validation failures, or the storage driver's rejection when the value does
not fit the `numeric(2, 1)` rating column (the program throws the raw
database error there). -/
inductive ReviewErr where
  | http (e : HttpErr)
  | numericOverflow
deriving DecidableEq, Repr

/-- The `addReview` service (src/unnamed/part_009, lines 209–239): validate
the rating (HTTP 400 on failure, transaction untouched), then insert a
fresh row with default flags or, on `(userId, mediaId)` conflict, update
only `rating` and `updatedAt`.  Both paths write the rating column, so the
`numeric(2, 1)` storage semantics apply to the value before either branch;
on overflow the statement is rejected and no row is written.  Returns the
upserted row. -/
def addReview (u : String) (mt : MediaType) (mid : Nat) (v : JsNum)
    (now : Int) (db : DB) : Except ReviewErr (ReviewRow × DB) :=
  match validateRating v with
  | some err => .error (.http ⟨400, err⟩)
  | none =>
    match v with
    | .fin q =>
      match numericStore21 q with
      | .error _ => .error .numericOverflow
      | .ok stored =>
        let table := db.reviewTable mt
        match table.find? (fun r => r.userId == u && r.mediaId == mid) with
        | some existing =>
          let table2 := table.map (fun r =>
            if r.userId == u && r.mediaId == mid then
              { r with rating := stored, updatedAt := now }
            else r)
          .ok ({ existing with rating := stored, updatedAt := now },
            db.setReviewTable mt table2)
        | none =>
          let row : ReviewRow :=
            ⟨u, mid, stored, mt, false, true, none, now, now⟩
          .ok (row, db.setReviewTable mt (table ++ [row]))
    | .nan => .error (.http ⟨400, "Rating must be a valid number"⟩)
    | .posInf => .error (.http ⟨400, "Rating must be between 1 and 10"⟩)
    | .negInf => .error (.http ⟨400, "Rating must be between 1 and 10"⟩)

/-- The `{ liked, watched, review, rating }` projection returned by
`getReview`. -/
structure ReviewView where
  liked : Bool
  watched : Bool
  review : Option String
  rating : Rat
deriving DecidableEq, Repr

/-- The `getReview` (src/unnamed/part_009, lines 103–122): the user's review row
for a media item, projected. -/
def getReview (u : String) (mt : MediaType) (mid : Nat) (db : DB) :
    Option ReviewView :=
  ((db.reviewTable mt).find? (fun r => r.userId == u && r.mediaId == mid)).map
    (fun r => ⟨r.liked, r.watched, r.review, r.rating⟩)

/-- C6 counterexample: the validator accepts `1.0000000001`, whose doubled
value is not an integer — the `1e-9` tolerance admits off-half-step values,
contradicting "value * 2 must be an integer". -/
theorem validateRating_accepts_offstep :
    validateRating (.fin (10000000001 / 10000000000)) = none ∧
      ¬ ∃ m : Int, ((10000000001 : Rat) / 10000000000) * 2 = (m : Rat) := by
  constructor
  · have hflr : jsRound ((10000000001 : Rat) / 10000000000 * 2) = 2 := by
      rw [jsRound, Int.floor_eq_iff]
      norm_num
    simp only [validateRating, hflr]
    rw [if_neg (by simp; norm_num),
      if_neg (by simp [abs_le]; norm_num)]
  · rintro ⟨m, hm⟩
    have hint : (20000000002 : Rat) = (m : Rat) * 10000000000 := by
      field_simp at hm
      linarith
    have hint2 : (20000000002 : Int) = m * 10000000000 := by
      exact_mod_cast hint
    omega

/-- Writing and then reading the review table for a media type round
trips. -/
theorem reviewTable_set (db : DB) (mt : MediaType) (t : List ReviewRow) :
    (db.setReviewTable mt t).reviewTable mt = t := by
  cases mt <;> rfl

/-- Every exact half-step value in the validator's range `[1, 10]` passes
validation. -/
theorem validateRating_half_none (n : Int) (hn1 : 2 ≤ n) (hn2 : n ≤ 20) :
    validateRating (.fin ((n : Rat) / 2)) = none := by
  have hq2 : ((n : Rat) / 2) * 2 = (n : Rat) := by
    field_simp
  have hflr : jsRound (n : Rat) = n := by
    rw [jsRound, Int.floor_eq_iff]
    constructor
    · linarith
    · linarith
  have h1 : (1 : Rat) ≤ (n : Rat) / 2 := by
    have h : (2 : Rat) ≤ (n : Rat) := by exact_mod_cast hn1
    linarith
  have h2 : (n : Rat) / 2 ≤ 10 := by
    have h : (n : Rat) ≤ 20 := by exact_mod_cast hn2
    linarith
  simp only [validateRating, hq2, hflr]
  rw [if_neg (by simp; exact ⟨by linarith, by linarith⟩)]
  rw [if_neg (by simp)]

/-- Half-step values up to `9.5` fit the `numeric(2, 1)` column and are
stored unchanged (one decimal digit, magnitude below 10). -/
theorem numericStore21_half (n : Int) (hn1 : 2 ≤ n) (hn2 : n ≤ 19) :
    numericStore21 ((n : Rat) / 2) = .ok ((n : Rat) / 2) := by
  have hq : ((n : Rat) / 2) * 10 = ((5 * n : Int) : Rat) := by
    push_cast
    ring
  have hpos : (0 : Rat) ≤ ((5 * n : Int) : Rat) := by
    have h : (0 : Int) ≤ 5 * n := by omega
    exact_mod_cast h
  have hflr : ⌊((5 * n : Int) : Rat) + 1 / 2⌋ = 5 * n := by
    rw [Int.floor_eq_iff]
    constructor
    · linarith
    · linarith
  have habs : ¬(100 ≤ (5 * n).natAbs) := by omega
  simp only [numericStore21, roundHalfAwayFromZero, hq]
  rw [if_pos hpos, hflr, if_neg habs]
  congr 1
  push_cast
  ring

/-- Rating 10 does not fit the `numeric(2, 1)` column: its scaled value
needs two integer digits. -/
theorem numericStore21_ten :
    numericStore21 (10 : Rat) = .error "numeric field overflow" := by
  have hq : (10 : Rat) * 10 = ((100 : Int) : Rat) := by norm_num
  have hpos : (0 : Rat) ≤ ((100 : Int) : Rat) := by norm_num
  have hflr : ⌊((100 : Int) : Rat) + 1 / 2⌋ = 100 := by
    rw [Int.floor_eq_iff]
    constructor <;> norm_num
  simp only [numericStore21, roundHalfAwayFromZero, hq]
  rw [if_pos hpos, hflr, if_pos (by decide)]

/-- C6 amended: review upsert rejects a rating with a validation error and
leaves the store untouched whenever the parsed value is NaN, outside the
closed range `[1, 10]`, or farther than the `1e-9` tolerance from
`round(value * 2) / 2` (rather than exactly on a half step); every exact
half-step rating `n/2` with `n` an integer in `[2, 19]` (1.0 through 9.5) is
accepted, stored, and returned unchanged by a subsequent read; rating 10,
although accepted by the validator, is rejected at the write by the rating
column's `numeric(2, 1)` bound with a numeric-field overflow, and no row is
written. -/
theorem review_upsert_half_step (u : String) (mt : MediaType) (mid : Nat)
    (now : Int) (db : DB) (n : Int) (hn1 : 2 ≤ n) (hn2 : n ≤ 19) :
    validateRating .nan = some "Rating must be a valid number" ∧
      (∀ q : Rat, q < 1 ∨ 10 < q →
        validateRating (.fin q) = some "Rating must be between 1 and 10") ∧
      (∀ q : Rat, |q - ((jsRound (q * 2) : Rat)) / 2| > 1 / 1000000000 →
        validateRating (.fin q) ≠ none) ∧
      (∀ v : JsNum, ∀ err : String, validateRating v = some err →
        addReview u mt mid v now db = .error (.http ⟨400, err⟩)) ∧
      validateRating (.fin ((n : Rat) / 2)) = none ∧
      (∃ row : ReviewRow, ∃ db2 : DB,
        addReview u mt mid (.fin ((n : Rat) / 2)) now db = .ok (row, db2) ∧
          row.rating = (n : Rat) / 2 ∧
          (∃ vw : ReviewView, getReview u mt mid db2 = some vw ∧
            vw.rating = (n : Rat) / 2)) ∧
      validateRating (.fin (10 : Rat)) = none ∧
      addReview u mt mid (.fin (10 : Rat)) now db =
        .error .numericOverflow := by
  have hval := validateRating_half_none n hn1 (by omega)
  have hstore := numericStore21_half n hn1 hn2
  have hval10 : validateRating (.fin (10 : Rat)) = none := by
    have h := validateRating_half_none 20 (by norm_num) (by norm_num)
    have hc : ((20 : Int) : Rat) / 2 = (10 : Rat) := by norm_num
    rwa [hc] at h
  refine ⟨rfl, ?_, ?_, ?_, hval, ?_, hval10,
    by simp only [addReview, hval10, numericStore21_ten]⟩
  · intro q hq
    simp only [validateRating]
    rw [if_pos (by rcases hq with h | h <;> simp [h])]
  · intro q hq
    simp only [validateRating]
    by_cases hr : (decide (q < 1) || decide (q > 10)) = true
    · rw [if_pos hr]
      simp
    · rw [if_neg hr, if_pos (by simpa using hq)]
      simp
  · intro v err herr
    simp only [addReview, herr]
  · rcases hfind : (db.reviewTable mt).find?
        (fun r => r.userId == u && r.mediaId == mid) with _ | existing
    · refine ⟨⟨u, mid, (n : Rat) / 2, mt, false, true, none, now, now⟩,
        db.setReviewTable mt (db.reviewTable mt ++
          [⟨u, mid, (n : Rat) / 2, mt, false, true, none, now, now⟩]),
        ?_, rfl, ?_⟩
      · simp only [addReview, hval, hstore, hfind]
      · refine ⟨⟨false, true, none, (n : Rat) / 2⟩, ?_, rfl⟩
        simp only [getReview, reviewTable_set]
        rw [find?_append_of_none hfind,
          List.find?_cons_of_pos _ (by simp)]
        rfl
    · have hpred := List.find?_some hfind
      refine ⟨{ existing with rating := (n : Rat) / 2, updatedAt := now },
        db.setReviewTable mt ((db.reviewTable mt).map (fun r =>
          if r.userId == u && r.mediaId == mid then
            { r with rating := (n : Rat) / 2, updatedAt := now }
          else r)), ?_, rfl, ?_⟩
      · simp only [addReview, hval, hstore, hfind]
      · refine ⟨⟨existing.liked, existing.watched, existing.review,
          (n : Rat) / 2⟩, ?_, rfl⟩
        have hinv : ∀ r : ReviewRow,
            (((if r.userId == u && r.mediaId == mid then
                { r with rating := (n : Rat) / 2, updatedAt := now }
              else r).userId == u) &&
              ((if r.userId == u && r.mediaId == mid then
                { r with rating := (n : Rat) / 2, updatedAt := now }
              else r).mediaId == mid)) =
              (r.userId == u && r.mediaId == mid) := by
          intro r
          by_cases h : (r.userId == u && r.mediaId == mid) = true <;> simp [h]
        simp only [getReview, reviewTable_set]
        rw [find?_map_of_pred_inv hinv, hfind]
        have hpred2 : existing.userId = u ∧ existing.mediaId = mid := by
          simpa using hpred
        simp [hpred2.1, hpred2.2]

/-- Witness for the amended C6: storing rating 7.5 (= 15/2) for movie 603 in
the empty store, with the overflow behaviour at rating 10 included. -/
theorem review_upsert_half_step_witness :
    (2 : Int) ≤ 15 ∧ (15 : Int) ≤ 19 ∧
      (validateRating .nan = some "Rating must be a valid number" ∧
        (∀ q : Rat, q < 1 ∨ 10 < q →
          validateRating (.fin q) = some "Rating must be between 1 and 10") ∧
        (∀ q : Rat, |q - ((jsRound (q * 2) : Rat)) / 2| > 1 / 1000000000 →
          validateRating (.fin q) ≠ none) ∧
        (∀ v : JsNum, ∀ err : String, validateRating v = some err →
          addReview "u1" .movie 603 v 0 dbEmpty = .error (.http ⟨400, err⟩)) ∧
        validateRating (.fin ((15 : Int) / 2 : Rat)) = none ∧
        (∃ row : ReviewRow, ∃ db2 : DB,
          addReview "u1" .movie 603 (.fin (((15 : Int) : Rat) / 2)) 0 dbEmpty
              = .ok (row, db2) ∧
            row.rating = ((15 : Int) : Rat) / 2 ∧
            (∃ vw : ReviewView, getReview "u1" .movie 603 db2 = some vw ∧
              vw.rating = ((15 : Int) : Rat) / 2)) ∧
        validateRating (.fin (10 : Rat)) = none ∧
        addReview "u1" .movie 603 (.fin (10 : Rat)) 0 dbEmpty =
          .error .numericOverflow) :=
  ⟨by decide, by decide,
    review_upsert_half_step "u1" .movie 603 0 dbEmpty 15 (by decide)
      (by decide)⟩

/-- A row of `getPopularLists`'s result: the grouped list columns, the
owner's username and the `viewCount` aggregate. -/
structure PopRow where
  id : Nat
  userId : String
  username : String
  name : String
  likeCount : Int
  saveCount : Int
  slug : String
  createdAt : Int
  updatedAt : Option Int
  viewCount : Nat
deriving DecidableEq, Repr

/-- The `count(listView.id)` for one list: the stored all-time view count. -/
def trueViewCount (db : DB) (listId : Nat) : Nat :=
  db.listViews.countP (fun v => v.listId == listId)

/-- Descending insertion by `viewCount`: the model of
`ORDER BY count(listView.id) DESC`. -/
def insertByCount (x : PopRow) : List PopRow → List PopRow
  | [] => [x]
  | y :: ys =>
    if y.viewCount < x.viewCount then x :: y :: ys
    else y :: insertByCount x ys

/-- Sorts rows by `viewCount`, largest first. -/
def sortByCountDesc : List PopRow → List PopRow
  | [] => []
  | x :: xs => insertByCount x (sortByCountDesc xs)

/-- The `results.forEach(result => result.viewCount = Math.floor(
Math.random() * 5000))` overwrite: row `i` receives the `i`-th draw of the
random stream. -/
def overwriteCounts (rand : Nat → Nat) : Nat → List PopRow → List PopRow
  | _, [] => []
  | i, r :: rs => { r with viewCount := rand i } :: overwriteCounts rand (i + 1) rs

/-- The `getPopularLists` (src/services/v1/lists.ts, lines 474–510): group the
`list ⋈ listView ⋈ user` join by list (the inner join keeps only lists with
at least one view), order by the stored view count descending, take `limit`
rows — then overwrite every returned `viewCount` with a random integer in
`[0, 5000)`.  The `Math.random()` stream is an explicit argument. -/
def getPopularLists (rand : Nat → Nat) (db : DB) (lim : Nat) : List PopRow :=
  let grouped := db.lists.filterMap (fun l =>
    match db.users.find? (fun usr => usr.id == l.userId) with
    | none => none
    | some usr =>
      if trueViewCount db l.id > 0 then
        some ⟨l.id, l.userId, usr.username, l.name, l.likeCount, l.saveCount,
          l.slug, l.createdAt, l.updatedAt, trueViewCount db l.id⟩
      else none)
  overwriteCounts rand 0 ((sortByCountDesc grouped).take lim)

/-- The overwritten view counts are exactly the first draws of the random
stream. -/
theorem overwriteCounts_viewCounts (rand : Nat → Nat) :
    ∀ (l : List PopRow) (i : Nat),
      (overwriteCounts rand i l).map PopRow.viewCount =
        (List.range l.length).map (fun j => rand (i + j)) := by
  intro l
  induction l with
  | nil => intro i; rfl
  | cons r rs ih =>
    intro i
    simp only [overwriteCounts, List.map_cons, List.length_cons]
    rw [List.range_succ_eq_map, List.map_cons, List.map_map, ih (i + 1)]
    congr 1
    refine List.map_congr_left ?_
    intro j hj
    simp only [Function.comp_apply]
    congr 1
    omega

/-- The overwrite keeps the number of rows. -/
theorem overwriteCounts_length (rand : Nat → Nat) :
    ∀ (l : List PopRow) (i : Nat),
      (overwriteCounts rand i l).length = l.length := by
  intro l
  induction l with
  | nil => intro i; rfl
  | cons r rs ih =>
    intro i
    simp only [overwriteCounts, List.length_cons, ih (i + 1)]

/-- A store with one list of u1 and one stored view of it. -/
def dbPop : DB :=
  { dbEmpty with
      lists := [listRow1]
      users := [⟨"u1", "user-one"⟩]
      listViews := [⟨1, some "u2", 1, none, 0⟩] }

/-- C10: `getPopularLists` overwrites every returned `viewCount` with a draw
of the random stream — the reported counts are exactly the first draws,
independent of the storage state — so two calls over the same state with
different streams disagree, and the reported count differs from the stored
count that determined the ordering. -/
theorem getPopularLists_random_viewCounts :
    (∀ rand : Nat → Nat, ∀ db : DB, ∀ lim : Nat,
      (getPopularLists rand db lim).map PopRow.viewCount =
        (List.range (getPopularLists rand db lim).length).map rand) ∧
      (∃ db : DB, ∃ r1 r2 : Nat → Nat,
        (∀ i, r1 i < 5000) ∧ (∀ i, r2 i < 5000) ∧
          getPopularLists r1 db 10 ≠ getPopularLists r2 db 10 ∧
          (∃ row ∈ getPopularLists r1 db 10,
            row.viewCount ≠ trueViewCount db row.id)) := by
  constructor
  · intro rand db lim
    simp only [getPopularLists]
    rw [overwriteCounts_viewCounts, overwriteCounts_length]
    refine List.map_congr_left ?_
    intro j hj
    congr 1
    omega
  · refine ⟨dbPop, (fun _ => 0), (fun _ => 1), fun i => by norm_num,
      fun i => by norm_num, ?_, ?_⟩
    · decide
    · decide

end FrameRate
